import Mathlib

/-!
Verification of the count-obfuscation core of `samply/laplace-rs`
(`src/lib.rs`, `src/errors.rs`), as a shallow embedding in Lean.

Embedding conventions:
* `serde_json::Value` is embedded as the mutual inductive `Json` /
  `JsonList` / `JsonFields`.  `Json.numU n` stands for a JSON number whose
  `as_u64()` is `Some n` (a non-negative integer that fits in a `u64`);
  `Json.numOther` carries the textual form of any other number
  (negative integers and floats, on which `as_u64()` returns `None`).
* The ambient mutable context of the Rust code — the `ObfCache` HashMap,
  the thread-local random generator, and the `warn!` log — is threaded
  explicitly as the state `ObfState`.  The random generator is an oracle
  `draws : Nat -> Int` giving, per draw index, the Laplace sample already
  rounded by `.round()` (an integer-valued real); the Rust cast
  `as u64` on that rounded `f64` is `castU64`, which saturates: negative
  values become `0`, values past `u64::MAX` become `u64::MAX`.
* `u64` arithmetic is `Nat` arithmetic reduced `% 2 ^ 64` where the source
  adds `u64`s (release-profile wrapping semantics).
-/

namespace LaplaceRs

mutual

/-- The mutual embedding of `serde_json::Value` (objects keep the field
order in which the serde map iterates them). -/
inductive Json where
  | null : Json
  | bool : Bool → Json
  | numU : Nat → Json
  | numOther : String → Json
  | str : String → Json
  | arr : JsonList → Json
  | obj : JsonFields → Json

/-- A sequence of array elements. -/
inductive JsonList where
  | nil : JsonList
  | cons : Json → JsonList → JsonList

/-- A sequence of object fields. -/
inductive JsonFields where
  | nil : JsonFields
  | cons : String → Json → JsonFields → JsonFields

end

/-- `Value::as_u64`: `Some` exactly on non-negative integer numbers. -/
def Json.asU64 : Json → Option Nat
  | .numU n => some n
  | _ => none

/-- `map.get("count")`-style lookup: value under the first matching key. -/
def findField : JsonFields → String → Option Json
  | .nil, _ => none
  | .cons k v tl, key => if k = key then some v else findField tl key

/-- Replace the value under the first matching key (the serde map write
`*count_val = ...`); unchanged when the key is absent. -/
def setField : JsonFields → String → Json → JsonFields
  | .nil, _, _ => .nil
  | .cons k v tl, key, w =>
      if k = key then .cons k w tl else .cons k v (setField tl key w)

/-- `2 ^ 64`, the modulus of `u64` arithmetic. -/
def U64LIMIT : Nat := 2 ^ 64

/-- The Rust cast `as u64` applied to an integer-valued `f64`
(the result of `.round()`): saturating at both ends. -/
def castU64 (d : Int) : Nat :=
  if d < 0 then 0 else min d.toNat (U64LIMIT - 1)

/-- The thread-local random source: an oracle of rounded Laplace draws
(`dist.sample(&mut rng).round()` as a mathematical integer) and the index
of the next draw. -/
structure Rng where
  draws : Nat → Int
  idx : Nat

/-- The threaded ambient state: the `ObfCache` HashMap (as an association
list, newest entry first — the source only ever inserts on a miss, so
cons + first-match lookup coincides with HashMap semantics), the random
source, and the `warn!` log. -/
structure ObfState where
  cache : List ((Nat × Nat × Nat) × Nat)
  rng : Rng
  warnings : List String

/-- `obf_cache.cache.get(&key)`. -/
def cacheGet : List ((Nat × Nat × Nat) × Nat) → (Nat × Nat × Nat) → Option Nat
  | [], _ => none
  | (k2, v) :: tl, k => if k2 = k then some v else cacheGet tl k

/-- The `match obf_cache.cache.get(&(sensitivity, count, bin))` block of
`obfuscate_counts_recursive` (src/lib.rs:128-136): on a hit return the
stored perturbation, on a miss draw one sample, round and cast it, store
it under the key and return it. -/
def getPerturbation (sens c bin : Nat) (st : ObfState) : Nat × ObfState :=
  match cacheGet st.cache (sens, c, bin) with
  | some p => (p, st)
  | none =>
      let p := castU64 (st.rng.draws st.rng.idx)
      (p, { st with
              cache := ((sens, c, bin), p) :: st.cache,
              rng := { st.rng with idx := st.rng.idx + 1 } })

/-- The count-rewriting head of the `Value::Object` arm of
`obfuscate_counts_recursive` (src/lib.rs:119-141): if the object holds a
key `"count"` whose value answers `as_u64`, compute the replacement value
(`some` of the new count) and the successor state; `none` means the value
is left untouched (count `0`, or a non-`u64` value).  `sens` is
`(dist.scale() * EPSILON).round() as usize`, constant per distribution. -/
def countStep (fs : JsonFields) (sens bin : Nat) (st : ObfState) :
    Option Nat × ObfState :=
  match findField fs "count" with
  | none => (none, st)
  | some v =>
      match v.asU64 with
      | none => (none, st)
      | some c =>
          if 1 ≤ c ∧ c ≤ 10 then (some 10, st)
          else if 10 < c then
            let r := getPerturbation sens c bin st
            (some ((c + r.1 + 5) % U64LIMIT / 10 * 10), r.2)
          else (none, st)  -- "And zero stays zero"

/-- Apply the computed count replacement to the recursed field list. -/
def applyCount : Option Nat → JsonFields → JsonFields
  | none, fs => fs
  | some n, fs => setField fs "count" (.numU n)

mutual

/-- `obfuscate_counts_recursive` (src/lib.rs:117-154).  The source
replaces the `"count"` value *before* iterating the map; the replacement
is a numeric scalar, on which the recursive visit is the identity, so
applying the replacement *after* the iteration (as done here, to keep the
recursion structural) produces the same fields and the same state. -/
def obfuscate_counts_recursive (j : Json) (sens bin : Nat) (st : ObfState) :
    Json × ObfState :=
  match j with
  | .obj fs =>
      let r1 := countStep fs sens bin st
      let r2 := obfuscate_counts_recursive_fields fs sens bin r1.2
      (.obj (applyCount r1.1 r2.1), r2.2)
  | .arr xs =>
      let r := obfuscate_counts_recursive_list xs sens bin st
      (.arr r.1, r.2)
  | .null => (.null, st)
  | .bool b => (.bool b, st)
  | .numU n => (.numU n, st)
  | .numOther s => (.numOther s, st)
  | .str s => (.str s, st)

/-- The `for (_, sub_val) in map.iter_mut()` loop. -/
def obfuscate_counts_recursive_fields (fs : JsonFields) (sens bin : Nat)
    (st : ObfState) : JsonFields × ObfState :=
  match fs with
  | .nil => (.nil, st)
  | .cons k v tl =>
      let r1 := obfuscate_counts_recursive v sens bin st
      let r2 := obfuscate_counts_recursive_fields tl sens bin r1.2
      (.cons k r1.1 r2.1, r2.2)

/-- The `for sub_val in vec.iter_mut()` loop. -/
def obfuscate_counts_recursive_list (xs : JsonList) (sens bin : Nat)
    (st : ObfState) : JsonList × ObfState :=
  match xs with
  | .nil => (.nil, st)
  | .cons x tl =>
      let r1 := obfuscate_counts_recursive x sens bin st
      let r2 := obfuscate_counts_recursive_list tl sens bin r1.2
      (.cons r1.1 r2.1, r2.2)

end

/-- `struct Code { text: String }`. -/
structure Code where
  text : String

/-- `struct Group { code: Code, population: Value, stratifier: Value }`. -/
structure Group where
  code : Code
  population : Json
  stratifier : Json

/-- `struct Period { end: String, start: String }`. -/
structure Period where
  «end» : String
  start : String

/-- `struct ValueQuantity`. -/
structure ValueQuantity where
  code : String
  system : String
  unit : String
  value : Float

/-- `struct Extension { url, value_quantity }`. -/
structure Extension where
  url : String
  valueQuantity : ValueQuantity

/-- `struct MeasureReport` (src/lib.rs:66-77). -/
structure MeasureReport where
  date : String
  «extension» : List Extension
  group : List Group
  measure : String
  period : Period
  resourceType : String
  status : String
  type_ : String

/-- The integer sensitivity class for the patients distribution:
`Laplace::new(0.0, DELTA_PATIENT/EPSILON)` has `scale = 1.0/0.1 = 10.0`
(exact in `f64`), and `(10.0 * 0.1).round() = (1.0).round() = 1`.
All three products land exactly on the corresponding `f64` integer, so the
`usize` sensitivities are the constants 1, 3 and 20. -/
def sensPatients : Nat := 1

/-- Sensitivity class for diagnosis: `((3.0/0.1) * 0.1).round() = 3`. -/
def sensDiagnosis : Nat := 3

/-- Sensitivity class for specimen: `((20.0/0.1) * 0.1).round() = 20`. -/
def sensSpecimen : Nat := 20

/-- The message of the `warn!` in the unrecognized-category arm. -/
def focusWarnMessage : String := "focus is not aware of this type of stratifier"

/-- The per-group dispatch of `obfuscate_counts` (src/lib.rs:89-110):
match on `g.code.text`; a recognized category visits `population` with
bin `1` and then `stratifier` with bin `2` under that category's
distribution; anything else leaves the group untouched and logs a
warning. -/
def processGroup (g : Group) (st : ObfState) : Group × ObfState :=
  if g.code.text = "patients" then
    let r1 := obfuscate_counts_recursive g.population sensPatients 1 st
    let r2 := obfuscate_counts_recursive g.stratifier sensPatients 2 r1.2
    ({ g with population := r1.1, stratifier := r2.1 }, r2.2)
  else if g.code.text = "diagnosis" then
    let r1 := obfuscate_counts_recursive g.population sensDiagnosis 1 st
    let r2 := obfuscate_counts_recursive g.stratifier sensDiagnosis 2 r1.2
    ({ g with population := r1.1, stratifier := r2.1 }, r2.2)
  else if g.code.text = "specimen" then
    let r1 := obfuscate_counts_recursive g.population sensSpecimen 1 st
    let r2 := obfuscate_counts_recursive g.stratifier sensSpecimen 2 r1.2
    ({ g with population := r1.1, stratifier := r2.1 }, r2.2)
  else
    (g, { st with warnings := st.warnings ++ [focusWarnMessage] })

/-- The `for g in &mut measure_report.group` loop. -/
def processGroups (gs : List Group) (st : ObfState) : List Group × ObfState :=
  match gs with
  | [] => ([], st)
  | g :: tl =>
      let r1 := processGroup g st
      let r2 := processGroups tl r1.2
      (r1.1 :: r2.1, r2.2)

/-- `obfuscate_counts` (src/lib.rs:82-115), after deserialization and
before re-serialization (both are done by serde and are deterministic
functions of the `MeasureReport` value; the panicking `unwrap`s around
them are modelled by `obfuscate_counts_outer` below). -/
def obfuscate_counts (mr : MeasureReport) (st : ObfState) :
    MeasureReport × ObfState :=
  let r := processGroups mr.group st
  ({ mr with group := r.1 }, r.2)

/-- The `serde_json::from_str(&json_str).unwrap()` boundary of
`obfuscate_counts`: the argument is the parse result of the input string
(`none` when it does not deserialize to a `MeasureReport`); `.unwrap()`
on a failed parse panics, modelled as `none` — no `LaplaceError` value is
ever constructed or returned (the Rust signature returns `String`, not
`Result`). -/
def obfuscate_counts_outer (parsed : Option MeasureReport) (st : ObfState) :
    Option (MeasureReport × ObfState) :=
  match parsed with
  | none => none
  | some mr => some (obfuscate_counts mr st)

/-- The error enum of src/errors.rs (the `StatsError` payload is carried
as its description string). -/
inductive LaplaceError where
  | distributionCreationError : String → LaplaceError
  | invalidArgRoundingStepZero : LaplaceError
  | deserializationError : String → LaplaceError
  | serializationError : String → LaplaceError
  | roundingStepError : String → LaplaceError

/-- Modelled from the spec: §4.1 "Noise Mechanism".  A function
`sample_laplace(mu, scale)` is specified but absent from src/ — the code
calls the statrs library (`Laplace::new(...)` + `.sample(...)`) directly,
and only the error variant it would carry (`DistributionCreationError`,
src/errors.rs:6-7) is declared in this repository.  Per the spec it draws
one sample from Laplace(mu, scale) using the supplied generator, fails
with `DistributionCreationError` (carrying the underlying statistical
library's description) whenever `scale <= 0`, and succeeds for every
`scale > 0`, consuming exactly one draw.  The draw oracle supplies the
standardized sample. -/
def sample_laplace (mu scale : ℚ) (rng : Rng) :
    Except LaplaceError (ℚ × Rng) :=
  if scale ≤ 0 then
    .error (.distributionCreationError "Location must be finite and scale must be positive")
  else
    .ok (mu + scale * (rng.draws rng.idx : ℚ), { rng with idx := rng.idx + 1 })

/-- The `"count"` entry of an object node (`none` on non-objects). -/
def countOf (j : Json) : Option Json :=
  match j with
  | .obj fs => findField fs "count"
  | _ => none

/-- Cache extension: every binding of `c1` is present, with the same
value, in `c2`. -/
def CacheLe (c1 c2 : List ((Nat × Nat × Nat) × Nat)) : Prop :=
  ∀ k v, cacheGet c1 k = some v → cacheGet c2 k = some v

/-- The sensitivity class the group dispatch of `obfuscate_counts`
associates to a category label (`none` for unrecognized labels). -/
def recognizedSens (g : Group) : Option Nat :=
  if g.code.text = "patients" then some sensPatients
  else if g.code.text = "diagnosis" then some sensDiagnosis
  else if g.code.text = "specimen" then some sensSpecimen
  else none

mutual

/-- Shape equality up to count values: both trees have the same
constructors, the same keys in the same order, the same array lengths
and the same scalars everywhere — except that the value bound to a key
literally named `"count"` may be replaced by another `u64` number. -/
inductive Similar : Json → Json → Prop where
  | null : Similar .null .null
  | bool (b : Bool) : Similar (.bool b) (.bool b)
  | numU (n : Nat) : Similar (.numU n) (.numU n)
  | numOther (s : String) : Similar (.numOther s) (.numOther s)
  | str (s : String) : Similar (.str s) (.str s)
  | arr {xs ys : JsonList} : SimilarList xs ys → Similar (.arr xs) (.arr ys)
  | obj {fs gs : JsonFields} : SimilarFields fs gs → Similar (.obj fs) (.obj gs)

/-- Element-wise `Similar` on array contents (same length). -/
inductive SimilarList : JsonList → JsonList → Prop where
  | nil : SimilarList .nil .nil
  | cons {x y : Json} {xs ys : JsonList} :
      Similar x y → SimilarList xs ys → SimilarList (.cons x xs) (.cons y ys)

/-- Field-wise `Similar` on objects: identical keys in identical order;
a value may change only under the key `"count"`, and only from one `u64`
number to another. -/
inductive SimilarFields : JsonFields → JsonFields → Prop where
  | nil : SimilarFields .nil .nil
  | cons {k : String} {v w : Json} {fs gs : JsonFields} :
      Similar v w → SimilarFields fs gs →
      SimilarFields (.cons k v fs) (.cons k w gs)
  | consCount {a b : Nat} {fs gs : JsonFields} :
      SimilarFields fs gs →
      SimilarFields (.cons "count" (.numU a) fs) (.cons "count" (.numU b) gs)

end

/-- Fixture random source: every draw is the integer `3`. -/
def exRng3 : Rng := { draws := fun _ => 3, idx := 0 }

/-- Fixture state: empty cache, draws of `3`, empty log. -/
def exState3 : ObfState := { cache := [], rng := exRng3, warnings := [] }

/-- Fixture random source: every draw is the integer `1`. -/
def exRng1 : Rng := { draws := fun _ => 1, idx := 0 }

/-- Fixture state: empty cache, draws of `1`, empty log. -/
def exState1 : ObfState := { cache := [], rng := exRng1, warnings := [] }

/-- Fixture random source: every draw is the negative integer `-4`. -/
def exRngNeg : Rng := { draws := fun _ => -4, idx := 0 }

/-- Fixture state: empty cache, draws of `-4`, empty log. -/
def exStateNeg : ObfState := { cache := [], rng := exRngNeg, warnings := [] }

/-- Fixture report: one `patients` group whose population is an object
with a count of `74`, with a nested stratifier count of `31`. -/
def exReport : MeasureReport :=
  { date := "2023-03-03"
    «extension» := []
    group :=
      [ { code := { text := "patients" }
          population := .obj (.cons "count" (.numU 74) .nil)
          stratifier := .arr (.cons (.obj (.cons "count" (.numU 31) .nil)) .nil) } ]
    measure := "urn:uuid:fe7e5bf7"
    period := { «end» := "2030", start := "2000" }
    resourceType := "MeasureReport"
    status := "complete"
    type_ := "summary" }

/-- Fixture state: a cache already holding the key `(1, 74, 1)` with
perturbation `7`, draws of `3`, empty log. -/
def exStateCached : ObfState :=
  { cache := [((1, 74, 1), 7)], rng := exRng3, warnings := [] }

/-- Fixture object fields: a single `"count"` binding of `74`. -/
def exFields74 : JsonFields := .cons "count" (.numU 74) .nil

/-- Fixture group: `patients`, population count `74`, null stratifier. -/
def exGroupPatients : Group :=
  { code := { text := "patients" }
    population := .obj exFields74
    stratifier := .null }

/-- Fixture group with an unrecognized category label. -/
def exGroupMystery : Group :=
  { code := { text := "mystery" }
    population := .obj exFields74
    stratifier := .null }

/-! ## Basic lemmas about the cache and the perturbation lookup -/

theorem cacheLe_refl (c : List ((Nat × Nat × Nat) × Nat)) : CacheLe c c :=
  fun _ _ h => h

theorem cacheLe_trans {a b c : List ((Nat × Nat × Nat) × Nat)}
    (h1 : CacheLe a b) (h2 : CacheLe b c) : CacheLe a c :=
  fun k v h => h2 k v (h1 k v h)

theorem asU64_eq_some {v : Json} {c : Nat} (h : v.asU64 = some c) :
    v = .numU c := by
  cases v <;> simp [Json.asU64] at h
  rw [h]

theorem getPerturbation_hit {s c b : Nat} {st : ObfState} {p : Nat}
    (h : cacheGet st.cache (s, c, b) = some p) :
    getPerturbation s c b st = (p, st) := by
  unfold getPerturbation
  rw [h]

theorem getPerturbation_fst (s c b : Nat) (st : ObfState) :
    (getPerturbation s c b st).1 =
      match cacheGet st.cache (s, c, b) with
      | some p => p
      | none => castU64 (st.rng.draws st.rng.idx) := by
  unfold getPerturbation
  cases h : cacheGet st.cache (s, c, b) <;> rfl

theorem getPerturbation_mem (s c b : Nat) (st : ObfState) :
    cacheGet (getPerturbation s c b st).2.cache (s, c, b) =
      some (getPerturbation s c b st).1 := by
  unfold getPerturbation
  cases h : cacheGet st.cache (s, c, b) with
  | some p => simpa using h
  | none => simp [cacheGet]

theorem getPerturbation_cacheLe (s c b : Nat) (st : ObfState) :
    CacheLe st.cache (getPerturbation s c b st).2.cache := by
  unfold getPerturbation
  cases h : cacheGet st.cache (s, c, b) with
  | some p => exact cacheLe_refl _
  | none =>
      intro k v hk
      simp only [cacheGet]
      by_cases hkk : (s, c, b) = k
      · rw [← hkk] at hk
        rw [h] at hk
        exact absurd hk (by simp)
      · rw [if_neg hkk]
        exact hk

theorem getPerturbation_newKeys (s c b : Nat) (st : ObfState)
    (k : Nat × Nat × Nat) (h : cacheGet (getPerturbation s c b st).2.cache k ≠ none) :
    cacheGet st.cache k ≠ none ∨ k = (s, c, b) := by
  revert h
  unfold getPerturbation
  cases h : cacheGet st.cache (s, c, b) with
  | some p => exact fun h2 => .inl h2
  | none =>
      simp only [cacheGet]
      by_cases hkk : (s, c, b) = k
      · exact fun _ => .inr hkk.symm
      · rw [if_neg hkk]
        exact fun h2 => .inl h2

/-! ## Equations for the count-rewriting step -/

theorem countStep_no_count {fs : JsonFields} (s b : Nat) (st : ObfState)
    (h : findField fs "count" = none) : countStep fs s b st = (none, st) := by
  unfold countStep
  rw [h]

theorem countStep_not_u64 {fs : JsonFields} {v : Json} (s b : Nat) (st : ObfState)
    (h1 : findField fs "count" = some v) (h2 : v.asU64 = none) :
    countStep fs s b st = (none, st) := by
  simp only [countStep, h1, h2]

theorem countStep_zero {fs : JsonFields} {v : Json} (s b : Nat) (st : ObfState)
    (h1 : findField fs "count" = some v) (h2 : v.asU64 = some 0) :
    countStep fs s b st = (none, st) := by
  simp only [countStep, h1, h2]
  norm_num

theorem countStep_small {fs : JsonFields} {v : Json} {c : Nat} (s b : Nat)
    (st : ObfState) (h1 : findField fs "count" = some v) (h2 : v.asU64 = some c)
    (hc1 : 1 ≤ c) (hc2 : c ≤ 10) : countStep fs s b st = (some 10, st) := by
  simp only [countStep, h1, h2]
  rw [if_pos ⟨hc1, hc2⟩]

theorem countStep_large {fs : JsonFields} {v : Json} {c : Nat} (s b : Nat)
    (st : ObfState) (h1 : findField fs "count" = some v) (h2 : v.asU64 = some c)
    (hc : 10 < c) :
    countStep fs s b st =
      (some ((c + (getPerturbation s c b st).1 + 5) % U64LIMIT / 10 * 10),
       (getPerturbation s c b st).2) := by
  simp only [countStep, h1, h2]
  rw [if_neg (by omega), if_pos hc]

theorem countStep_cacheLe (fs : JsonFields) (s b : Nat) (st : ObfState) :
    CacheLe st.cache (countStep fs s b st).2.cache := by
  cases h1 : findField fs "count" with
  | none => rw [countStep_no_count s b st h1]; exact cacheLe_refl _
  | some v =>
      cases h2 : v.asU64 with
      | none => rw [countStep_not_u64 s b st h1 h2]; exact cacheLe_refl _
      | some c =>
          rcases Nat.lt_or_ge 10 c with hc | hc
          · rw [countStep_large s b st h1 h2 hc]
            exact getPerturbation_cacheLe s c b st
          · rcases Nat.eq_zero_or_pos c with hc0 | hc0
            · subst hc0
              rw [countStep_zero s b st h1 h2]; exact cacheLe_refl _
            · rw [countStep_small s b st h1 h2 hc0 hc]; exact cacheLe_refl _

theorem countStep_stable (fs : JsonFields) (s b : Nat) (st st2 : ObfState)
    (h : CacheLe (countStep fs s b st).2.cache st2.cache) :
    countStep fs s b st2 = ((countStep fs s b st).1, st2) := by
  cases h1 : findField fs "count" with
  | none => rw [countStep_no_count s b st h1, countStep_no_count s b st2 h1]
  | some v =>
      cases h2 : v.asU64 with
      | none => rw [countStep_not_u64 s b st h1 h2, countStep_not_u64 s b st2 h1 h2]
      | some c =>
          rcases Nat.lt_or_ge 10 c with hc | hc
          · rw [countStep_large s b st h1 h2 hc] at h ⊢
            have hmem : cacheGet st2.cache (s, c, b) =
                some (getPerturbation s c b st).1 :=
              h _ _ (getPerturbation_mem s c b st)
            rw [countStep_large s b st2 h1 h2 hc, getPerturbation_hit hmem]
          · rcases Nat.eq_zero_or_pos c with hc0 | hc0
            · subst hc0
              rw [countStep_zero s b st h1 h2, countStep_zero s b st2 h1 h2]
            · rw [countStep_small s b st h1 h2 hc0 hc,
                countStep_small s b st2 h1 h2 hc0 hc]

theorem countStep_newKeys (fs : JsonFields) (s b : Nat) (st : ObfState)
    (k : Nat × Nat × Nat) (h : cacheGet (countStep fs s b st).2.cache k ≠ none) :
    cacheGet st.cache k ≠ none ∨ (k.1 = s ∧ k.2.2 = b) := by
  revert h
  cases h1 : findField fs "count" with
  | none => rw [countStep_no_count s b st h1]; exact fun h => .inl h
  | some v =>
      cases h2 : v.asU64 with
      | none => rw [countStep_not_u64 s b st h1 h2]; exact fun h => .inl h
      | some c =>
          rcases Nat.lt_or_ge 10 c with hc | hc
          · rw [countStep_large s b st h1 h2 hc]
            intro h
            rcases getPerturbation_newKeys s c b st k h with h3 | h3
            · exact .inl h3
            · subst h3; exact .inr ⟨rfl, rfl⟩
          · rcases Nat.eq_zero_or_pos c with hc0 | hc0
            · subst hc0
              rw [countStep_zero s b st h1 h2]; exact fun h => .inl h
            · rw [countStep_small s b st h1 h2 hc0 hc]; exact fun h => .inl h

/-! ## Field-lookup lemmas -/

theorem findField_setField : ∀ (gs : JsonFields) (key : String) (u w : Json),
    findField gs key = some w → findField (setField gs key u) key = some u
  | .nil, key, u, w => by simp [findField]
  | .cons k v tl, key, u, w => by
      by_cases hk : k = key
      · subst hk
        simp [findField, setField]
      · intro h
        simp only [findField, setField, if_neg hk] at h ⊢
        exact findField_setField tl key u w h

/-- The recursive visit leaves `u64`-number field values in place (it is
the identity on numeric scalars), so a numeric field survives the field
loop unchanged. -/
theorem findField_fields_numU : ∀ (fs : JsonFields) (key : String) (x s b : Nat)
    (st : ObfState), findField fs key = some (.numU x) →
    findField (obfuscate_counts_recursive_fields fs s b st).1 key = some (.numU x)
  | .nil, key, x, s, b, st => by simp [findField]
  | .cons k v tl, key, x, s, b, st => by
      intro h
      simp only [obfuscate_counts_recursive_fields]
      by_cases hk : k = key
      · subst hk
        simp only [findField, if_pos rfl] at h ⊢
        obtain rfl : v = .numU x := by injection h
        simp [obfuscate_counts_recursive]
      · simp only [findField, if_neg hk] at h ⊢
        exact findField_fields_numU tl key x s b _ h

/-! ## Cache monotonicity of the rewriter -/

mutual

theorem obfuscate_counts_recursive_cacheLe : ∀ (j : Json) (s b : Nat)
    (st : ObfState), CacheLe st.cache (obfuscate_counts_recursive j s b st).2.cache
  | .obj fs, s, b, st =>
      cacheLe_trans (countStep_cacheLe fs s b st)
        (obfuscate_counts_recursive_fields_cacheLe fs s b (countStep fs s b st).2)
  | .arr xs, s, b, st => obfuscate_counts_recursive_list_cacheLe xs s b st
  | .null, _, _, _ => cacheLe_refl _
  | .bool _, _, _, _ => cacheLe_refl _
  | .numU _, _, _, _ => cacheLe_refl _
  | .numOther _, _, _, _ => cacheLe_refl _
  | .str _, _, _, _ => cacheLe_refl _

theorem obfuscate_counts_recursive_fields_cacheLe : ∀ (fs : JsonFields)
    (s b : Nat) (st : ObfState),
    CacheLe st.cache (obfuscate_counts_recursive_fields fs s b st).2.cache
  | .nil, _, _, _ => cacheLe_refl _
  | .cons _ v tl, s, b, st =>
      cacheLe_trans (obfuscate_counts_recursive_cacheLe v s b st)
        (obfuscate_counts_recursive_fields_cacheLe tl s b
          (obfuscate_counts_recursive v s b st).2)

theorem obfuscate_counts_recursive_list_cacheLe : ∀ (xs : JsonList)
    (s b : Nat) (st : ObfState),
    CacheLe st.cache (obfuscate_counts_recursive_list xs s b st).2.cache
  | .nil, _, _, _ => cacheLe_refl _
  | .cons x tl, s, b, st =>
      cacheLe_trans (obfuscate_counts_recursive_cacheLe x s b st)
        (obfuscate_counts_recursive_list_cacheLe tl s b
          (obfuscate_counts_recursive x s b st).2)

end

/-! ## Stability: re-running under any extension of the final cache
reproduces the output and leaves the state untouched -/

mutual

theorem obfuscate_counts_recursive_stable : ∀ (j : Json) (s b : Nat)
    (st st2 : ObfState),
    CacheLe (obfuscate_counts_recursive j s b st).2.cache st2.cache →
    obfuscate_counts_recursive j s b st2 =
      ((obfuscate_counts_recursive j s b st).1, st2)
  | .obj fs, s, b, st, st2 => by
      intro h
      simp only [obfuscate_counts_recursive] at h ⊢
      have hcs : CacheLe (countStep fs s b st).2.cache st2.cache :=
        cacheLe_trans
          (obfuscate_counts_recursive_fields_cacheLe fs s b (countStep fs s b st).2) h
      rw [countStep_stable fs s b st st2 hcs]
      rw [obfuscate_counts_recursive_fields_stable fs s b (countStep fs s b st).2 st2 h]
  | .arr xs, s, b, st, st2 => by
      intro h
      simp only [obfuscate_counts_recursive] at h ⊢
      rw [obfuscate_counts_recursive_list_stable xs s b st st2 h]
  | .null, s, b, st, st2 => fun _ => rfl
  | .bool _, s, b, st, st2 => fun _ => rfl
  | .numU _, s, b, st, st2 => fun _ => rfl
  | .numOther _, s, b, st, st2 => fun _ => rfl
  | .str _, s, b, st, st2 => fun _ => rfl

theorem obfuscate_counts_recursive_fields_stable : ∀ (fs : JsonFields)
    (s b : Nat) (st st2 : ObfState),
    CacheLe (obfuscate_counts_recursive_fields fs s b st).2.cache st2.cache →
    obfuscate_counts_recursive_fields fs s b st2 =
      ((obfuscate_counts_recursive_fields fs s b st).1, st2)
  | .nil, s, b, st, st2 => fun _ => rfl
  | .cons k v tl, s, b, st, st2 => by
      intro h
      simp only [obfuscate_counts_recursive_fields] at h ⊢
      have hv : CacheLe (obfuscate_counts_recursive v s b st).2.cache st2.cache :=
        cacheLe_trans
          (obfuscate_counts_recursive_fields_cacheLe tl s b
            (obfuscate_counts_recursive v s b st).2) h
      rw [obfuscate_counts_recursive_stable v s b st st2 hv]
      rw [obfuscate_counts_recursive_fields_stable tl s b
        (obfuscate_counts_recursive v s b st).2 st2 h]

theorem obfuscate_counts_recursive_list_stable : ∀ (xs : JsonList)
    (s b : Nat) (st st2 : ObfState),
    CacheLe (obfuscate_counts_recursive_list xs s b st).2.cache st2.cache →
    obfuscate_counts_recursive_list xs s b st2 =
      ((obfuscate_counts_recursive_list xs s b st).1, st2)
  | .nil, s, b, st, st2 => fun _ => rfl
  | .cons x tl, s, b, st, st2 => by
      intro h
      simp only [obfuscate_counts_recursive_list] at h ⊢
      have hx : CacheLe (obfuscate_counts_recursive x s b st).2.cache st2.cache :=
        cacheLe_trans
          (obfuscate_counts_recursive_list_cacheLe tl s b
            (obfuscate_counts_recursive x s b st).2) h
      rw [obfuscate_counts_recursive_stable x s b st st2 hx]
      rw [obfuscate_counts_recursive_list_stable tl s b
        (obfuscate_counts_recursive x s b st).2 st2 h]

end

/-! ## Which cache keys the rewriter can create -/

mutual

theorem obfuscate_counts_recursive_newKeys : ∀ (j : Json) (s b : Nat)
    (st : ObfState) (k : Nat × Nat × Nat),
    cacheGet (obfuscate_counts_recursive j s b st).2.cache k ≠ none →
    cacheGet st.cache k ≠ none ∨ (k.1 = s ∧ k.2.2 = b)
  | .obj fs, s, b, st, k => by
      intro h
      simp only [obfuscate_counts_recursive] at h
      rcases obfuscate_counts_recursive_fields_newKeys fs s b
          (countStep fs s b st).2 k h with h2 | h2
      · exact countStep_newKeys fs s b st k h2
      · exact .inr h2
  | .arr xs, s, b, st, k => fun h =>
      obfuscate_counts_recursive_list_newKeys xs s b st k h
  | .null, _, _, _, _ => fun h => .inl h
  | .bool _, _, _, _, _ => fun h => .inl h
  | .numU _, _, _, _, _ => fun h => .inl h
  | .numOther _, _, _, _, _ => fun h => .inl h
  | .str _, _, _, _, _ => fun h => .inl h

theorem obfuscate_counts_recursive_fields_newKeys : ∀ (fs : JsonFields)
    (s b : Nat) (st : ObfState) (k : Nat × Nat × Nat),
    cacheGet (obfuscate_counts_recursive_fields fs s b st).2.cache k ≠ none →
    cacheGet st.cache k ≠ none ∨ (k.1 = s ∧ k.2.2 = b)
  | .nil, _, _, _, _ => fun h => .inl h
  | .cons _ v tl, s, b, st, k => by
      intro h
      simp only [obfuscate_counts_recursive_fields] at h
      rcases obfuscate_counts_recursive_fields_newKeys tl s b
          (obfuscate_counts_recursive v s b st).2 k h with h2 | h2
      · exact obfuscate_counts_recursive_newKeys v s b st k h2
      · exact .inr h2

theorem obfuscate_counts_recursive_list_newKeys : ∀ (xs : JsonList)
    (s b : Nat) (st : ObfState) (k : Nat × Nat × Nat),
    cacheGet (obfuscate_counts_recursive_list xs s b st).2.cache k ≠ none →
    cacheGet st.cache k ≠ none ∨ (k.1 = s ∧ k.2.2 = b)
  | .nil, _, _, _, _ => fun h => .inl h
  | .cons x tl, s, b, st, k => by
      intro h
      simp only [obfuscate_counts_recursive_list] at h
      rcases obfuscate_counts_recursive_list_newKeys tl s b
          (obfuscate_counts_recursive x s b st).2 k h with h2 | h2
      · exact obfuscate_counts_recursive_newKeys x s b st k h2
      · exact .inr h2

end

/-! ## Shape preservation -/

theorem similar_numU_inv {x : Nat} {w : Json} (h : Similar (.numU x) w) :
    w = .numU x := by
  cases h
  rfl

mutual

theorem similar_refl : ∀ (j : Json), Similar j j
  | .null => .null
  | .bool b => .bool b
  | .numU n => .numU n
  | .numOther s => .numOther s
  | .str s => .str s
  | .arr xs => .arr (similarList_refl xs)
  | .obj fs => .obj (similarFields_refl fs)

theorem similarList_refl : ∀ (xs : JsonList), SimilarList xs xs
  | .nil => .nil
  | .cons x tl => .cons (similar_refl x) (similarList_refl tl)

theorem similarFields_refl : ∀ (fs : JsonFields), SimilarFields fs fs
  | .nil => .nil
  | .cons _ v tl => .cons (similar_refl v) (similarFields_refl tl)

end

/-- Overwriting the (first) `"count"` binding of the right-hand object
with another `u64` number preserves `SimilarFields`, provided the
left-hand object binds `"count"` to a `u64` number. -/
theorem similarFields_setCount : ∀ {fs gs : JsonFields},
    SimilarFields fs gs → ∀ (c n : Nat),
    findField fs "count" = some (.numU c) →
    SimilarFields fs (setField gs "count" (.numU n))
  | _, _, .nil, c, n => by simp [findField]
  | _, _, @SimilarFields.cons k v w fs1 gs1 hvw htl, c, n => by
      intro hfind
      by_cases hk : k = "count"
      · subst hk
        simp only [findField, if_pos rfl] at hfind
        obtain rfl : v = .numU c := by injection hfind
        obtain rfl : w = .numU c := similar_numU_inv hvw
        simp only [setField, if_pos rfl]
        exact .consCount htl
      · simp only [findField, if_neg hk] at hfind
        simp only [setField, if_neg hk]
        exact .cons hvw (similarFields_setCount htl c n hfind)
  | _, _, @SimilarFields.consCount a b2 fs1 gs1 htl, c, n => by
      intro _
      simp only [setField, if_pos rfl]
      exact .consCount htl

/-- If `countStep` produced a replacement value, the object bound
`"count"` to a `u64` number. -/
theorem countStep_some_of {fs : JsonFields} {s b : Nat} {st : ObfState} {n : Nat}
    (h : (countStep fs s b st).1 = some n) :
    ∃ c, findField fs "count" = some (.numU c) := by
  revert h
  cases h1 : findField fs "count" with
  | none => rw [countStep_no_count s b st h1]; simp
  | some v =>
      cases h2 : v.asU64 with
      | none => rw [countStep_not_u64 s b st h1 h2]; simp
      | some c =>
          intro _
          exact ⟨c, by rw [asU64_eq_some h2]⟩

mutual

theorem obfuscate_counts_recursive_similar : ∀ (j : Json) (s b : Nat)
    (st : ObfState), Similar j (obfuscate_counts_recursive j s b st).1
  | .obj fs, s, b, st => by
      simp only [obfuscate_counts_recursive]
      have hf : SimilarFields fs
          (obfuscate_counts_recursive_fields fs s b (countStep fs s b st).2).1 :=
        obfuscate_counts_recursive_fields_similar fs s b (countStep fs s b st).2
      cases hcs : (countStep fs s b st).1 with
      | none => exact .obj hf
      | some n =>
          obtain ⟨c, hc⟩ := countStep_some_of hcs
          exact .obj (similarFields_setCount hf c n hc)
  | .arr xs, s, b, st =>
      .arr (obfuscate_counts_recursive_list_similar xs s b st)
  | .null, _, _, _ => .null
  | .bool b, _, _, _ => .bool b
  | .numU n, _, _, _ => .numU n
  | .numOther s, _, _, _ => .numOther s
  | .str s, _, _, _ => .str s

theorem obfuscate_counts_recursive_fields_similar : ∀ (fs : JsonFields)
    (s b : Nat) (st : ObfState),
    SimilarFields fs (obfuscate_counts_recursive_fields fs s b st).1
  | .nil, _, _, _ => .nil
  | .cons _ v tl, s, b, st =>
      .cons (obfuscate_counts_recursive_similar v s b st)
        (obfuscate_counts_recursive_fields_similar tl s b
          (obfuscate_counts_recursive v s b st).2)

theorem obfuscate_counts_recursive_list_similar : ∀ (xs : JsonList)
    (s b : Nat) (st : ObfState),
    SimilarList xs (obfuscate_counts_recursive_list xs s b st).1
  | .nil, _, _, _ => .nil
  | .cons x tl, s, b, st =>
      .cons (obfuscate_counts_recursive_similar x s b st)
        (obfuscate_counts_recursive_list_similar tl s b
          (obfuscate_counts_recursive x s b st).2)

end

/-! ## Group dispatch -/

theorem processGroup_recognized {g : Group} {sens : Nat}
    (h : recognizedSens g = some sens) (st : ObfState) :
    processGroup g st =
      ({ g with
          population := (obfuscate_counts_recursive g.population sens 1 st).1,
          stratifier := (obfuscate_counts_recursive g.stratifier sens 2
            (obfuscate_counts_recursive g.population sens 1 st).2).1 },
       (obfuscate_counts_recursive g.stratifier sens 2
         (obfuscate_counts_recursive g.population sens 1 st).2).2) := by
  unfold recognizedSens at h
  unfold processGroup
  split_ifs at h ⊢ <;> (injection h with h; subst h; rfl)

theorem processGroup_unknown {g : Group} (h : recognizedSens g = none)
    (st : ObfState) :
    processGroup g st =
      (g, { st with warnings := st.warnings ++ [focusWarnMessage] }) := by
  unfold recognizedSens at h
  unfold processGroup
  split_ifs at h ⊢
  rfl

theorem processGroup_cacheLe (g : Group) (st : ObfState) :
    CacheLe st.cache (processGroup g st).2.cache := by
  cases hr : recognizedSens g with
  | some sens =>
      rw [processGroup_recognized hr st]
      exact cacheLe_trans
        (obfuscate_counts_recursive_cacheLe g.population sens 1 st)
        (obfuscate_counts_recursive_cacheLe g.stratifier sens 2 _)
  | none =>
      rw [processGroup_unknown hr st]
      exact cacheLe_refl _

theorem processGroups_cacheLe : ∀ (gs : List Group) (st : ObfState),
    CacheLe st.cache (processGroups gs st).2.cache := by
  intro gs
  induction gs with
  | nil => intro st; exact cacheLe_refl _
  | cons g tl ih =>
      intro st
      simp only [processGroups]
      exact cacheLe_trans (processGroup_cacheLe g st) (ih (processGroup g st).2)

theorem processGroups_fst_stable : ∀ (gs : List Group) (st st2 : ObfState),
    CacheLe (processGroups gs st).2.cache st2.cache →
    (processGroups gs st2).1 = (processGroups gs st).1 := by
  intro gs
  induction gs with
  | nil => intro st st2 _; rfl
  | cons g tl ih =>
      intro st st2 h
      simp only [processGroups] at h ⊢
      cases hr : recognizedSens g with
      | some sens =>
          rw [processGroup_recognized hr st] at h
          simp only at h
          have hS : CacheLe (obfuscate_counts_recursive g.stratifier sens 2
              (obfuscate_counts_recursive g.population sens 1 st).2).2.cache
              st2.cache :=
            cacheLe_trans (processGroups_cacheLe tl _) h
          have hP : CacheLe
              (obfuscate_counts_recursive g.population sens 1 st).2.cache
              st2.cache :=
            cacheLe_trans
              (obfuscate_counts_recursive_cacheLe g.stratifier sens 2 _) hS
          have e1 : obfuscate_counts_recursive g.population sens 1 st2 =
              ((obfuscate_counts_recursive g.population sens 1 st).1, st2) :=
            obfuscate_counts_recursive_stable g.population sens 1 st st2 hP
          have e2 : obfuscate_counts_recursive g.stratifier sens 2 st2 =
              ((obfuscate_counts_recursive g.stratifier sens 2
                (obfuscate_counts_recursive g.population sens 1 st).2).1, st2) :=
            obfuscate_counts_recursive_stable g.stratifier sens 2
              (obfuscate_counts_recursive g.population sens 1 st).2 st2 hS
          simp only [processGroup_recognized hr st, processGroup_recognized hr st2,
            e1, e2]
          rw [ih _ st2 h]
      | none =>
          rw [processGroup_unknown hr st] at h
          simp only at h
          simp only [processGroup_unknown hr st, processGroup_unknown hr st2]
          rw [ih _ { st2 with warnings := st2.warnings ++ [focusWarnMessage] } h]

theorem processGroups_forall2 : ∀ (gs : List Group) (st : ObfState),
    List.Forall₂ (fun g g2 => g2.code = g.code ∧
      Similar g.population g2.population ∧ Similar g.stratifier g2.stratifier)
      gs (processGroups gs st).1 := by
  intro gs
  induction gs with
  | nil => intro st; exact List.Forall₂.nil
  | cons g tl ih =>
      intro st
      simp only [processGroups]
      refine List.Forall₂.cons ?_ (ih _)
      cases hr : recognizedSens g with
      | some sens =>
          simp only [processGroup_recognized hr st]
          exact ⟨trivial, obfuscate_counts_recursive_similar g.population sens 1 st,
            obfuscate_counts_recursive_similar g.stratifier sens 2 _⟩
      | none =>
          simp only [processGroup_unknown hr st]
          exact ⟨trivial, similar_refl _, similar_refl _⟩

theorem obfuscate_counts_cacheLe (mr : MeasureReport) (st : ObfState) :
    CacheLe st.cache (obfuscate_counts mr st).2.cache := by
  simp only [obfuscate_counts]
  exact processGroups_cacheLe mr.group st

/-- Shared helper: the `"count"` value of an object node with raw count
`c > 10` after the rewriter ran on it. -/
theorem countOf_obj_large (fs : JsonFields) (s b : Nat) (st : ObfState) (c : Nat)
    (h1 : findField fs "count" = some (.numU c)) (h2 : 10 < c) :
    countOf (obfuscate_counts_recursive (.obj fs) s b st).1 =
      some (.numU ((c + (getPerturbation s c b st).1 + 5) % U64LIMIT / 10 * 10)) := by
  simp only [obfuscate_counts_recursive, countOf]
  simp only [countStep_large s b st h1 rfl h2, applyCount]
  exact findField_setField _ "count" _ _
    (findField_fields_numU fs "count" c s b _ h1)

/-- The sensitivity class named by the group dispatch is tied to the
category label exactly as the three constants prescribe. -/
theorem recognizedSens_cases {g : Group} {sens : Nat}
    (h : recognizedSens g = some sens) :
    (g.code.text = "patients" ∧ sens = 1) ∨
    (g.code.text = "diagnosis" ∧ sens = 3) ∨
    (g.code.text = "specimen" ∧ sens = 20) := by
  unfold recognizedSens at h
  split_ifs at h with h1 h2 h3
  · injection h with h; subst h; exact .inl ⟨h1, rfl⟩
  · injection h with h; subst h; exact .inr (.inl ⟨h2, rfl⟩)
  · injection h with h; subst h; exact .inr (.inr ⟨h3, rfl⟩)

/-! ## Claim theorems -/

/-- C1: at any object node holding a key literally named `"count"` with a
non-negative integer value `c ≤ 10`, the rewriter leaves `c` unchanged
when `c = 0` and replaces it with exactly `10` when `1 ≤ c ≤ 10`,
whatever the sensitivity class (category), bin and cache/rng state. -/
theorem count_zero_and_small_rule (fs : JsonFields) (s b : Nat) (st : ObfState)
    (c : Nat) (h1 : findField fs "count" = some (.numU c)) (h2 : c ≤ 10) :
    countOf (obfuscate_counts_recursive (.obj fs) s b st).1 =
      some (.numU (if c = 0 then 0 else 10)) := by
  simp only [obfuscate_counts_recursive, countOf]
  rcases Nat.eq_zero_or_pos c with hc0 | hc0
  · subst hc0
    rw [if_pos rfl]
    simp only [countStep_zero s b st h1 rfl, applyCount]
    exact findField_fields_numU fs "count" 0 s b _ h1
  · rw [if_neg (by omega)]
    simp only [countStep_small s b st h1 rfl hc0 h2, applyCount]
    exact findField_setField _ "count" _ _
      (findField_fields_numU fs "count" c s b _ h1)

/-- Witness for C1 at counts `0` and `7`. -/
theorem count_zero_and_small_rule_witness :
    countOf (obfuscate_counts_recursive
        (.obj (.cons "count" (.numU 0) .nil)) 1 1 exState3).1 = some (.numU 0) ∧
    countOf (obfuscate_counts_recursive
        (.obj (.cons "count" (.numU 7) .nil)) 2 3 exState1).1 = some (.numU 10) :=
  ⟨count_zero_and_small_rule _ 1 1 exState3 0 rfl (by decide),
   count_zero_and_small_rule _ 2 3 exState1 7 rfl (by decide)⟩

/-- C2: at any object node with raw count `c > 10`, the rewriter stores
`((c + p + 5) / 10) * 10` (u64 integer arithmetic), where `p` is the
perturbation taken from the cache under `(sens, c, bin)` or, on a miss,
freshly sampled from the category's Laplace distribution and rounded to
the nearest integer; the replaced value is always a multiple of `10`. -/
theorem count_large_rule (fs : JsonFields) (s b : Nat) (st : ObfState) (c : Nat)
    (h1 : findField fs "count" = some (.numU c)) (h2 : 10 < c) :
    countOf (obfuscate_counts_recursive (.obj fs) s b st).1 =
      some (.numU ((c + (getPerturbation s c b st).1 + 5) % U64LIMIT / 10 * 10)) ∧
    (getPerturbation s c b st).1 =
      (match cacheGet st.cache (s, c, b) with
       | some p => p
       | none => castU64 (st.rng.draws st.rng.idx)) ∧
    10 ∣ (c + (getPerturbation s c b st).1 + 5) % U64LIMIT / 10 * 10 :=
  ⟨countOf_obj_large fs s b st c h1 h2, getPerturbation_fst s c b st,
   dvd_mul_left 10 _⟩

/-- Witness for C2 at count `74` with a fresh draw of `3`:
`(74 + 3 + 5) / 10 * 10 = 80`. -/
theorem count_large_rule_witness :
    (countOf (obfuscate_counts_recursive (.obj exFields74) 1 1 exState3).1 =
      some (.numU ((74 + (getPerturbation 1 74 1 exState3).1 + 5) % U64LIMIT / 10 * 10)) ∧
    (getPerturbation 1 74 1 exState3).1 =
      (match cacheGet exState3.cache (1, 74, 1) with
       | some p => p
       | none => castU64 (exState3.rng.draws exState3.rng.idx)) ∧
    10 ∣ (74 + (getPerturbation 1 74 1 exState3).1 + 5) % U64LIMIT / 10 * 10) ∧
    countOf (obfuscate_counts_recursive (.obj exFields74) 1 1 exState3).1 =
      some (.numU 80) :=
  ⟨count_large_rule exFields74 1 1 exState3 74 rfl (by decide), rfl⟩

/-- C3: the whole-document obfuscation is reproducible for a fixed cache:
once a run has populated the cache, re-running on the same parsed
document from any later state whose cache extends that run's final cache
(in particular immediately afterwards, or after arbitrary intervening
calls — the cache only ever grows, by `obfuscate_counts_cacheLe`) yields
the identical output document, hence a byte-identical serialization. -/
theorem obfuscate_counts_deterministic (mr : MeasureReport) (st st2 : ObfState)
    (h : CacheLe (obfuscate_counts mr st).2.cache st2.cache) :
    (obfuscate_counts mr st2).1 = (obfuscate_counts mr st).1 := by
  simp only [obfuscate_counts] at h ⊢
  rw [processGroups_fst_stable mr.group st st2 h]

/-- Witness for C3: running twice in a row on the example report. -/
theorem obfuscate_counts_deterministic_witness :
    (obfuscate_counts exReport (obfuscate_counts exReport exState3).2).1 =
      (obfuscate_counts exReport exState3).1 :=
  obfuscate_counts_deterministic exReport exState3
    (obfuscate_counts exReport exState3).2 (fun _ _ hv => hv)

/-- C4: the output document of `obfuscate_counts` has all non-group
fields equal to the input's, and group-wise the same category code and
`Similar` population/stratifier trees — identical constructors, keys (in
order), array lengths and scalars, where only a value bound to a key
literally named `"count"` may change, and then only from one `u64`
number to another. -/
theorem obfuscate_counts_shape (mr : MeasureReport) (st : ObfState) :
    (obfuscate_counts mr st).1.date = mr.date ∧
    (obfuscate_counts mr st).1.«extension» = mr.«extension» ∧
    (obfuscate_counts mr st).1.measure = mr.measure ∧
    (obfuscate_counts mr st).1.period = mr.period ∧
    (obfuscate_counts mr st).1.resourceType = mr.resourceType ∧
    (obfuscate_counts mr st).1.status = mr.status ∧
    (obfuscate_counts mr st).1.type_ = mr.type_ ∧
    List.Forall₂ (fun g g2 => g2.code = g.code ∧
      Similar g.population g2.population ∧ Similar g.stratifier g2.stratifier)
      mr.group (obfuscate_counts mr st).1.group :=
  ⟨rfl, rfl, rfl, rfl, rfl, rfl, rfl, processGroups_forall2 mr.group st⟩

/-- C5: every cache entry present before an obfuscation call is still
present, with the same value, afterwards — entries are inserted only on
a miss and never overwritten or removed. -/
theorem cache_entries_preserved (mr : MeasureReport) (st : ObfState)
    (k : Nat × Nat × Nat) (v : Nat) (h : cacheGet st.cache k = some v) :
    cacheGet (obfuscate_counts mr st).2.cache k = some v :=
  obfuscate_counts_cacheLe mr st k v h

/-- Witness for C5: the pre-existing entry `(1,74,1) ↦ 7` survives. -/
theorem cache_entries_preserved_witness :
    cacheGet exStateCached.cache (1, 74, 1) = some 7 ∧
    cacheGet (obfuscate_counts exReport exStateCached).2.cache (1, 74, 1) = some 7 :=
  ⟨rfl, cache_entries_preserved exReport exStateCached (1, 74, 1) 7 rfl⟩

/-- C6: a recognized group is processed by visiting its population
subtree with bin `1` and its stratifier subtree with bin `2`, both under
the category's sensitivity class — `1` for `patients`, `3` for
`diagnosis`, `20` for `specimen` — and every cache key created while
doing so carries exactly that sensitivity class and the bin of the
subtree it came from. -/
theorem group_category_dispatch (g : Group) (st : ObfState) (sens : Nat)
    (h : recognizedSens g = some sens) (k1 k2 : Nat × Nat × Nat)
    (hk1 : cacheGet (obfuscate_counts_recursive g.population sens 1 st).2.cache
      k1 ≠ none)
    (hk2 : cacheGet (obfuscate_counts_recursive g.stratifier sens 2
      (obfuscate_counts_recursive g.population sens 1 st).2).2.cache k2 ≠ none) :
    processGroup g st =
      ({ g with
          population := (obfuscate_counts_recursive g.population sens 1 st).1,
          stratifier := (obfuscate_counts_recursive g.stratifier sens 2
            (obfuscate_counts_recursive g.population sens 1 st).2).1 },
       (obfuscate_counts_recursive g.stratifier sens 2
         (obfuscate_counts_recursive g.population sens 1 st).2).2) ∧
    ((g.code.text = "patients" ∧ sens = 1) ∨
      (g.code.text = "diagnosis" ∧ sens = 3) ∨
      (g.code.text = "specimen" ∧ sens = 20)) ∧
    (cacheGet st.cache k1 ≠ none ∨ (k1.1 = sens ∧ k1.2.2 = 1)) ∧
    (cacheGet (obfuscate_counts_recursive g.population sens 1 st).2.cache k2 ≠
        none ∨ (k2.1 = sens ∧ k2.2.2 = 2)) :=
  ⟨processGroup_recognized h st, recognizedSens_cases h,
   obfuscate_counts_recursive_newKeys g.population sens 1 st k1 hk1,
   obfuscate_counts_recursive_newKeys g.stratifier sens 2 _ k2 hk2⟩

/-- Witness for C6 on the `patients` fixture group: the only created key
is `(1, 74, 1)`. -/
theorem group_category_dispatch_witness :
    (processGroup exGroupPatients exState3 =
      ({ exGroupPatients with
          population :=
            (obfuscate_counts_recursive exGroupPatients.population 1 1 exState3).1,
          stratifier := (obfuscate_counts_recursive exGroupPatients.stratifier 1 2
            (obfuscate_counts_recursive exGroupPatients.population 1 1 exState3).2).1 },
       (obfuscate_counts_recursive exGroupPatients.stratifier 1 2
         (obfuscate_counts_recursive exGroupPatients.population 1 1 exState3).2).2) ∧
    ((exGroupPatients.code.text = "patients" ∧ 1 = 1) ∨
      (exGroupPatients.code.text = "diagnosis" ∧ 1 = 3) ∨
      (exGroupPatients.code.text = "specimen" ∧ 1 = 20)) ∧
    (cacheGet exState3.cache (1, 74, 1) ≠ none ∨
      ((1, 74, 1).1 = 1 ∧ ((1, 74, 1) : Nat × Nat × Nat).2.2 = 1)) ∧
    (cacheGet (obfuscate_counts_recursive exGroupPatients.population 1 1
        exState3).2.cache (1, 74, 1) ≠ none ∨
      ((1, 74, 1).1 = 1 ∧ ((1, 74, 1) : Nat × Nat × Nat).2.2 = 2))) :=
  group_category_dispatch exGroupPatients exState3 1 rfl (1, 74, 1) (1, 74, 1)
    (by decide) (by decide)

/-- C7: a group whose category label is none of `patients`, `diagnosis`,
`specimen` is returned completely unmodified — no count inside it is
obfuscated, the cache and random source are untouched — a warning-level
diagnostic is appended to the log, and the remaining groups are processed
normally. -/
theorem unknown_category_untouched (g : Group) (st : ObfState)
    (rest : List Group) (h1 : g.code.text ≠ "patients")
    (h2 : g.code.text ≠ "diagnosis") (h3 : g.code.text ≠ "specimen") :
    processGroup g st =
      (g, { st with warnings := st.warnings ++ [focusWarnMessage] }) ∧
    processGroups (g :: rest) st =
      (g :: (processGroups rest
          { st with warnings := st.warnings ++ [focusWarnMessage] }).1,
       (processGroups rest
         { st with warnings := st.warnings ++ [focusWarnMessage] }).2) := by
  have hr : recognizedSens g = none := by
    unfold recognizedSens
    rw [if_neg h1, if_neg h2, if_neg h3]
  refine ⟨processGroup_unknown hr st, ?_⟩
  simp only [processGroups, processGroup_unknown hr st]

/-- Witness for C7 on a `mystery` group. -/
theorem unknown_category_untouched_witness :
    processGroup exGroupMystery exState3 =
      (exGroupMystery,
       { exState3 with warnings := exState3.warnings ++ [focusWarnMessage] }) ∧
    processGroups [exGroupMystery] exState3 =
      (exGroupMystery :: (processGroups []
          { exState3 with warnings := exState3.warnings ++ [focusWarnMessage] }).1,
       (processGroups []
         { exState3 with warnings := exState3.warnings ++ [focusWarnMessage] }).2) :=
  unknown_category_untouched exGroupMystery exState3 []
    (by decide) (by decide) (by decide)

/-- C8: `sample_laplace` fails with `DistributionCreationError`, carrying
the statistical library's description, for every `scale ≤ 0`, and
succeeds for every `scale > 0`; the error is the function's return value
(an `Except`), so it reaches the caller rather than being substituted. -/
theorem sample_laplace_scale_spec (mu scale : ℚ) (rng : Rng) :
    (scale ≤ 0 → sample_laplace mu scale rng =
      .error (.distributionCreationError
        "Location must be finite and scale must be positive")) ∧
    (0 < scale → ∃ v rng2, sample_laplace mu scale rng = .ok (v, rng2)) := by
  constructor
  · intro h
    unfold sample_laplace
    rw [if_pos h]
  · intro h
    unfold sample_laplace
    rw [if_neg (not_le.mpr h)]
    exact ⟨_, _, rfl⟩

/-- Witness for C8 at scales `-1` and `1`. -/
theorem sample_laplace_scale_spec_witness :
    sample_laplace 0 (-1) exRng3 =
      .error (.distributionCreationError
        "Location must be finite and scale must be positive") ∧
    ∃ v rng2, sample_laplace 0 1 exRng3 = .ok (v, rng2) :=
  ⟨(sample_laplace_scale_spec 0 (-1) exRng3).1 (by norm_num),
   (sample_laplace_scale_spec 0 1 exRng3).2 (by norm_num)⟩

/-- C9 as stated is false on the code: at raw count
`c = 18446744073709551610 = 2^64 - 6` with perturbation `1`, the u64 sum
`c + p + 5` wraps to `0`, so the stored value is `0`, far below the
plain rounding `((c + 5) / 10) * 10` the claim promises as a lower
bound. -/
theorem count_overflow_counterexample :
    countOf (obfuscate_counts_recursive
        (.obj (.cons "count" (.numU 18446744073709551610) .nil)) 1 1 exState1).1 =
      some (.numU 0) ∧
    ¬ (18446744073709551610 + 5) / 10 * 10 ≤ 0 := by
  constructor
  · rfl
  · decide

/-- C9 amended: the perturbation is always a non-negative integer —
negative Laplace samples saturate to `0` under the `as u64` cast — and
for every count `c > 10` whose u64 sum `c + p + 5` does not overflow,
the obfuscated value is at least `((c + 5) / 10) * 10`: noise can only
raise the reported count above plain rounding, never lower it. -/
theorem count_noise_only_raises (fs : JsonFields) (s b : Nat) (st : ObfState)
    (c : Nat) (d : Int) (hd : d < 0)
    (h1 : findField fs "count" = some (.numU c)) (h2 : 10 < c)
    (h3 : c + (getPerturbation s c b st).1 + 5 < U64LIMIT) :
    castU64 d = 0 ∧
    ∃ v, countOf (obfuscate_counts_recursive (.obj fs) s b st).1 =
        some (.numU v) ∧ (c + 5) / 10 * 10 ≤ v := by
  refine ⟨by unfold castU64; rw [if_pos hd], ?_⟩
  refine ⟨(c + (getPerturbation s c b st).1 + 5) % U64LIMIT / 10 * 10,
    countOf_obj_large fs s b st c h1 h2, ?_⟩
  rw [Nat.mod_eq_of_lt h3]
  exact Nat.mul_le_mul_right 10 (Nat.div_le_div_right (by omega))

/-- Witness for the amended C9 at count `74`, fresh draw `3`. -/
theorem count_noise_only_raises_witness :
    castU64 (-4) = 0 ∧
    ∃ v, countOf (obfuscate_counts_recursive (.obj exFields74) 1 1 exState3).1 =
        some (.numU v) ∧ (74 + 5) / 10 * 10 ≤ v :=
  count_noise_only_raises exFields74 1 1 exState3 74 (-4) (by decide) rfl
    (by decide) (by decide)

/-- C10: when the input string does not deserialize to a `MeasureReport`
the `.unwrap()` panics (modelled as `none`) — no `LaplaceError` value is
returned, matching the `-> String` signature; on every successfully
parsed input the function is total and produces a result. -/
theorem obfuscate_counts_outer_total (st : ObfState) :
    obfuscate_counts_outer none st = none ∧
    ∀ mr : MeasureReport,
      obfuscate_counts_outer (some mr) st = some (obfuscate_counts mr st) :=
  ⟨rfl, fun _ => rfl⟩

end LaplaceRs
